import Mathlib

/-!
Verification development for the m5 revenue-planning console.

This file gives a shallow embedding of the forecasting core of the
repository and proves the specification claims about it:

* `FeatureBuilder.build`   (src/m5rpc/features/feature_builder.py)
* the recursive horizon scorer `score_store.main`
                           (src/m5rpc/scoring/score_store.py; the
                           store+department scorer
                           src/m5rpc/scoring/score_store_dept.py is the
                           same algorithm line for line, keyed by the
                           pair (store_id, dept_id) instead of store_id,
                           so every theorem below about the store scorer
                           settles the corresponding statement for the
                           department scorer as well)
* `apply_price_scenario`   (src/m5rpc/scenarios/scenario_engine.py)

Modelling conventions, fixed once for the whole file:

* Tables are `List`s of records, one record per row, in frame order.
* Dates are integers (day numbers); "the next calendar day" is `d + 1`.
  `pd.date_range(last + 1 day, periods = h, freq = "D")` becomes the
  list `[last + 1, ..., last + h]`.
* Numeric values are `ℚ` (the Python code uses floats; every claim under
  study is about exact data-flow identities, never about rounding).
* A nullable column is an `Option ℚ`; pandas `NaN` is `none`.
* Standard deviations: `np.std(xs, ddof = 1)` and pandas
  `rolling(w).std()` are square roots of the sample variance.  A square
  root of a rational is not rational, so the embedding carries the
  *square* of each standard deviation (`sampleVar`, fields named
  `..._sq`).  `Real.sqrt` is injective on nonnegative rationals, so the
  squared field determines the float field and conversely: equality,
  missingness and zero-ness of the code's `roll_std_*` columns are
  exactly equality, missingness and zero-ness of the `_sq` fields, and
  an opaque predictor reading the true columns corresponds to an opaque
  predictor reading these.
* The calendar features `dow/week/month/year` produced by
  `_add_time_features` are fixed total functions of the calendar date
  alone (they can never be missing and never depend on the target).  The
  feature record therefore carries the raw `date` in their place; the
  quantile predictors are opaque functions of the whole record, so this
  representation gives them exactly the information of the four
  calendar columns.
-/

/-- Arithmetic mean of a list, `np.mean` / pandas `rolling(w).mean()`
applied to the window.  (`np.mean` of an empty array is NaN; the code
only ever takes means of nonempty buffers, see `scoreDays`.) -/
def mean (l : List ℚ) : ℚ := l.sum / l.length

/-- Sample variance with the N−1 denominator: the square of
`np.std(l, ddof = 1)` and of pandas `rolling(w).std()` on a full
window. -/
def sampleVar (l : List ℚ) : ℚ :=
  (l.map (fun x => (x - mean l) ^ 2)).sum / ((l.length : ℚ) - 1)

/-- The trailing `n` entries of a list: Python `l[-n:]` for `0 < n ≤ len`,
and the whole list when it is shorter than `n`. -/
def lastN (n : ℕ) (l : List ℚ) : List ℚ := l.drop (l.length - n)

/-- One row of the raw per-entity revenue table fed to
`FeatureBuilder.build` (e.g. `store_day.parquet`): a grouping key, a
date and the numeric target.  Store ids are modelled as naturals. -/
structure HRow where
  store : ℕ
  date : ℤ
  y : ℚ
deriving DecidableEq, Repr

/-- One row of the engineered feature table produced by
`FeatureBuilder.build` and consumed by the scorer
(`store_day_features.parquet`): the key columns, the standardized
target `y`, and the seven history-dependent feature columns, which pandas
leaves as NaN (`none`) when the group's history is too short.  The
future-known calendar columns are total functions of `date` and are
represented by it (see the file header). -/
structure FRow where
  store : ℕ
  date : ℤ
  y : ℚ
  lag_1 : Option ℚ
  lag_7 : Option ℚ
  lag_28 : Option ℚ
  roll_mean_7 : Option ℚ
  roll_std_7_sq : Option ℚ
  roll_mean_28 : Option ℚ
  roll_std_28_sq : Option ℚ
deriving DecidableEq, Repr

/-- Sort key of `sort_values(["store_id", "date"])`. -/
def HRow.key (r : HRow) : ℕ × ℤ := (r.store, r.date)

/-- Lexicographic order on (store, date) keys. -/
def keyLe (a b : ℕ × ℤ) : Prop := a.1 < b.1 ∨ (a.1 = b.1 ∧ a.2 ≤ b.2)

instance : DecidableRel keyLe := fun a b => by
  unfold keyLe; infer_instance

/-- Row order used by `df.sort_values(["store_id", "date"])` on the raw
table. -/
def hle (a b : HRow) : Prop := keyLe a.key b.key

instance : DecidableRel hle := fun a b => by
  unfold hle; infer_instance

namespace FeatureBuilder

/-- Lag and rolling features of one row, as functions of the list `ys`
of target values of the *strictly earlier* rows of the same group (in
date order).  This is the per-row content of

  `g.shift(k)`                      (lags 1, 7, 28) and
  `g.transform(lambda s: s.shift(1).rolling(w).{mean,std}())`,

where `g = out.groupby(group_cols, sort=False)["y"]`: at group position
`i`, `shift(k)` is the value at group position `i − k` when `i ≥ k` and
NaN otherwise, and `shift(1).rolling(w)` (with pandas' default
`min_periods = w`) aggregates the `w` values at group positions
`i − w, ..., i − 1` when `i ≥ w` and is NaN otherwise.  Here `i =
ys.length`. -/
def lagOf (k : ℕ) (ys : List ℚ) : Option ℚ :=
  if k ≤ ys.length then ys.get? (ys.length - k) else none

/-- Rolling mean over the full trailing window of `w` earlier values;
NaN (`none`) when fewer than `w` earlier values exist
(pandas `rolling(w).mean()` with default `min_periods = w`). -/
def rollMeanOf (w : ℕ) (ys : List ℚ) : Option ℚ :=
  if w ≤ ys.length then some (mean (lastN w ys)) else none

/-- Square of the rolling sample standard deviation over the full
trailing window of `w` earlier values; NaN (`none`) when fewer than `w`
earlier values exist (pandas `rolling(w).std()`, `ddof = 1`, default
`min_periods = w`). -/
def rollVarOf (w : ℕ) (ys : List ℚ) : Option ℚ :=
  if w ≤ ys.length then some (sampleVar (lastN w ys)) else none

/-- The feature row built for raw row `r`, given the list `prev` of rows
that precede it in the sorted frame.  Its group history is the `y`
column of the earlier rows of the same store. -/
def mkRow (prev : List HRow) (r : HRow) : FRow :=
  let ys := (prev.filter (fun x => x.store = r.store)).map (fun x => x.y)
  { store := r.store
    date := r.date
    y := r.y
    lag_1 := lagOf 1 ys
    lag_7 := lagOf 7 ys
    lag_28 := lagOf 28 ys
    roll_mean_7 := rollMeanOf 7 ys
    roll_std_7_sq := rollVarOf 7 ys
    roll_mean_28 := rollMeanOf 28 ys
    roll_std_28_sq := rollVarOf 28 ys }

/-- Walk the sorted frame left to right, building each row's features
from the rows already passed (`prev`).  This is exactly the
`groupby(...).shift` / `shift(1).rolling(w)` semantics: a row's features
depend only on strictly earlier rows of its own group. -/
def buildAux (prev : List HRow) : List HRow → List FRow
  | [] => []
  | r :: rest => mkRow prev r :: buildAux (prev ++ [r]) rest

/-- `FeatureBuilder.build` (feature_builder.py, lines 26–72):
sort by (group, date), standardize the target to `y`, and add the three
lag and four rolling columns computed independently per group.  Output:
the input rows in sorted order, augmented with the feature columns
(early rows of each group keep their NaNs — Phase G keeps them). -/
def build (df : List HRow) : List FRow :=
  buildAux [] (df.insertionSort hle)

end FeatureBuilder

/-- Forecast horizon, `settings.HORIZON_DAYS` (config/settings.py). -/
def HORIZON_DAYS : ℕ := 28

/-- One row of the forecast table written by the scorer
(`store_latest.parquet`): entity key, future date, and the three
quantile predictions. -/
structure FcRow where
  store : ℕ
  date : ℤ
  p10 : ℚ
  p50 : ℚ
  p90 : ℚ
deriving DecidableEq, Repr

/-- Sort key of the scorer's final
`sort_values(["store_id", "date"])`. -/
def FcRow.key (r : FcRow) : ℕ × ℤ := (r.store, r.date)

/-- Row order of the forecast table. -/
def fcle (a b : FcRow) : Prop := keyLe a.key b.key

instance : DecidableRel fcle := fun a b => by
  unfold fcle; infer_instance

/-- Sort key of the history feature table,
`sort_values(["store_id", "date"])` in `score_store.main`. -/
def FRow.key (r : FRow) : ℕ × ℤ := (r.store, r.date)

/-- Row order of the history feature table. -/
def fle (a b : FRow) : Prop := keyLe a.key b.key

instance : DecidableRel fle := fun a b => by
  unfold fle; infer_instance

/-- Date-only order used by the per-group `g.sort_values("date")`. -/
def dle (a b : FRow) : Prop := a.date ≤ b.date

instance : DecidableRel dle := fun a b => by
  unfold dle; infer_instance

namespace score_store

/-- The single feature row assembled for one future day of the horizon
walk (score_store.py lines 86–114): lags read from the tail of the
history buffer `y_hist` (NaN when the buffer is too short), rolling
statistics over the trailing `min(7, len)` and `min(28, len)` buffer
entries (`y_hist[-w:] if len(y_hist) >= w else y_hist`), with the sample
standard deviation replaced by `0.0` when the window has fewer than two
values.  `lag_1 = y_hist[-1]` is an `Option` only because Lean totalizes
the empty-buffer case that `groupby` can never feed the Python code
(a pandas group always has at least one row). -/
structure Feat where
  date : ℤ
  lag_1 : Option ℚ
  lag_7 : Option ℚ
  lag_28 : Option ℚ
  roll_mean_7 : ℚ
  roll_std_7_sq : ℚ
  roll_mean_28 : ℚ
  roll_std_28_sq : ℚ
deriving DecidableEq, Repr

/-- Assemble the feature row for date `d` from the current history
buffer `yh` (score_store.py lines 86–113). -/
def featFrom (yh : List ℚ) (d : ℤ) : Feat :=
  { date := d
    lag_1 := yh.getLast?
    lag_7 := if 7 ≤ yh.length then yh.get? (yh.length - 7) else none
    lag_28 := if 28 ≤ yh.length then yh.get? (yh.length - 28) else none
    roll_mean_7 := mean (lastN 7 yh)
    roll_std_7_sq := if 1 < (lastN 7 yh).length then sampleVar (lastN 7 yh) else 0
    roll_mean_28 := mean (lastN 28 yh)
    roll_std_28_sq := if 1 < (lastN 28 yh).length then sampleVar (lastN 28 yh) else 0 }

/-- The three trained quantile predictors (`lgb_q10/q50/q90.joblib`),
opaque "feature row in, scalar out" functions. -/
structure QModels where
  m10 : Feat → ℚ
  m50 : Feat → ℚ
  m90 : Feat → ℚ

/-- The inner loop `for dt in future_dates` of the recursive horizon
walk for one entity (score_store.py lines 85–133): build the feature
row from the buffer, get the three quantile predictions, record the
forecast row, and append the P50 prediction — the expected trajectory —
to the buffer before the next day. -/
def scoreDays (M : QModels) (sid : ℕ) : List ℤ → List ℚ → List FcRow
  | [], _ => []
  | d :: ds, yh =>
    let X := featFrom yh d
    let p10 := M.m10 X
    let p50 := M.m50 X
    let p90 := M.m90 X
    { store := sid, date := d, p10 := p10, p50 := p50, p90 := p90 }
      :: scoreDays M sid ds (yh ++ [p50])

/-- `df.dropna()` (score_store.py line 52): remove every history row
with any missing value.  The key, target and calendar columns are never
missing, so a row is removed exactly when one of the seven engineered
feature columns is NaN. -/
def dropna (t : List FRow) : List FRow :=
  t.filter (fun r =>
    r.lag_1.isSome && r.lag_7.isSome && r.lag_28.isSome &&
    r.roll_mean_7.isSome && r.roll_std_7_sq.isSome &&
    r.roll_mean_28.isSome && r.roll_std_28_sq.isSome)

/-- The NaN-filtered, (store, date)-sorted history frame of
score_store.py line 52. -/
def cleanHist (t : List FRow) : List FRow :=
  (dropna t).insertionSort fle

/-- `df["date"].max()` over the filtered history (score_store.py
line 54): the *global* last known date, shared by every entity.
(`.max()` of an empty frame is NaT; the `getD 0` default is irrelevant
to every theorem below, which all assume at least one surviving row.) -/
def lastDate (t : List FRow) : ℤ :=
  ((cleanHist t).map (fun r => r.date)).foldr max ((cleanHist t).headD
    { store := 0, date := 0, y := 0, lag_1 := none, lag_7 := none,
      lag_28 := none, roll_mean_7 := none, roll_std_7_sq := none,
      roll_mean_28 := none, roll_std_28_sq := none }).date

/-- `pd.date_range(last_date + 1 day, periods = horizon, freq = "D")`
(score_store.py lines 56–58): `horizon` consecutive days starting the
day after `from_`. -/
def futureDates (from_ : ℤ) (horizon : ℕ) : List ℤ :=
  (List.range horizon).map (fun (k : ℕ) => from_ + 1 + (k : ℤ))

/-- Distinct values in first-appearance order: the sequence of group
keys yielded by `df.groupby("store_id", sort=False)` on a frame whose
store column reads `l`. -/
def firstUniques : List ℕ → List ℕ
  | [] => []
  | x :: xs => x :: (firstUniques xs).filter (fun y => y ≠ x)

/-- Everything `score_store.main` emits besides the forecast table.
`skipReports` stands for any per-entity skip diagnostic printed during
the group loop: the script prints none (its only `print` is the final
"Wrote: ..." summary after the table is written), so this list is
always empty. -/
structure RunOut where
  rows : List FcRow
  skipReports : List ℕ
deriving Repr

/-- `score_store.main` (score_store.py lines 44–143) minus file I/O:
drop NaN rows and sort by (store, date); take the global last history
date and the 28 future dates after it; then, for each store in frame
order, seed the history buffer with the group's full `y` series in date
order and walk the horizon recursively; finally concatenate and sort
the forecast rows by (store, date).  `groupby(sort=False)` yields, for
each distinct store id in first-appearance order, the sub-frame of
exactly its rows in frame order (re-sorted by date at line 80). -/
def main (M : QModels) (t : List FRow) : RunOut :=
  let s := cleanHist t
  let futures := futureDates (lastDate t) HORIZON_DAYS
  let ids := firstUniques (s.map (fun r => r.store))
  let rows := ids.flatMap (fun sid =>
    let g := (s.filter (fun r => r.store = sid)).insertionSort dle
    scoreDays M sid futures (g.map (fun r => r.y)))
  { rows := rows.insertionSort fcle, skipReports := [] }

end score_store

namespace score_store

/-- The quantile predictors as fallible callables, for the failure-mode
analysis: a Python predictor either returns a scalar or raises an
exception of some opaque type `E`.  `Except.error e` is "`predict`
raised `e`". -/
structure QModelsE (E : Type) where
  m10 : Feat → Except E ℚ
  m50 : Feat → Except E ℚ
  m90 : Feat → Except E ℚ

/-- The horizon walk of `scoreDays` under Python exception semantics:
each of the three `float(m.predict(X)[0])` calls (score_store.py lines
118–120) may raise, and an uncaught exception aborts the enclosing
computation immediately — nothing in `main` catches, re-wraps or
annotates it. -/
def scoreDaysE {E : Type} (M : QModelsE E) (sid : ℕ) :
    List ℤ → List ℚ → Except E (List FcRow)
  | [], _ => Except.ok []
  | d :: ds, yh => do
    let X := featFrom yh d
    let p10 ← M.m10 X
    let p50 ← M.m50 X
    let p90 ← M.m90 X
    let rest ← scoreDaysE M sid ds (yh ++ [p50])
    Except.ok ({ store := sid, date := d, p10 := p10, p50 := p50,
                 p90 := p90 } :: rest)

/-- `score_store.main` under Python exception semantics: the per-store
loops run in sequence inside one `try`-less function body, so the first
exception raised by any predictor call aborts the whole run before the
output file is written — every entity's rows are lost, and the error
that escapes is the predictor's own exception value, unchanged. -/
def mainE {E : Type} (M : QModelsE E) (t : List FRow) :
    Except E RunOut := do
  let s := cleanHist t
  let futures := futureDates (lastDate t) HORIZON_DAYS
  let ids := firstUniques (s.map (fun r => r.store))
  let rowss ← ids.mapM (fun sid =>
    let g := (s.filter (fun r => r.store = sid)).insertionSort dle
    scoreDaysE M sid futures (g.map (fun r => r.y)))
  Except.ok { rows := rowss.flatten.insertionSort fcle, skipReports := [] }

end score_store

/-- The `ScenarioResult` container of scenario_engine.py lines 8–19:
baseline table, adjusted table, and the KPI summary. -/
structure ScenRow where
  store : ℕ
  date : ℤ
  p10 : ℚ
  p50 : ℚ
  p90 : ℚ
  p10_scenario : ℚ
  p50_scenario : ℚ
  p90_scenario : ℚ
deriving DecidableEq, Repr

/-- The five-field KPI summary dict of scenario_engine.py lines 61–67. -/
structure ScenSummary where
  price_delta_pct : ℚ
  multiplier : ℚ
  baseline_total_p50 : ℚ
  scenario_total_p50 : ℚ
  delta_total_p50 : ℚ
deriving DecidableEq, Repr

/-- `ScenarioResult` (scenario_engine.py): `baseline` is the input
forecast table untouched, `scenario` is the same table with the three
`*_scenario` columns added, `summary` the KPI record. -/
structure ScenarioResult where
  baseline : List FcRow
  scenario : List ScenRow
  summary : ScenSummary
deriving Repr

/-- `apply_price_scenario` (scenario_engine.py lines 22–69) with the
default `value_cols = ("p10", "p50", "p90")`: multiplier
`1 + delta/100`; each scenario column is the corresponding baseline
column times the multiplier, the baseline columns kept intact; the
summary compares the p50 column totals. -/
def apply_price_scenario (forecast_df : List FcRow)
    (price_delta_pct : ℚ) : ScenarioResult :=
  let multiplier : ℚ := 1 + price_delta_pct / 100
  let scen : List ScenRow := forecast_df.map (fun r =>
    { store := r.store, date := r.date,
      p10 := r.p10, p50 := r.p50, p90 := r.p90,
      p10_scenario := r.p10 * multiplier,
      p50_scenario := r.p50 * multiplier,
      p90_scenario := r.p90 * multiplier })
  let baseline_total : ℚ := (forecast_df.map (fun r => r.p50)).sum
  let scenario_total : ℚ := (scen.map (fun r => r.p50_scenario)).sum
  { baseline := forecast_df
    scenario := scen
    summary :=
      { price_delta_pct := price_delta_pct
        multiplier := multiplier
        baseline_total_p50 := baseline_total
        scenario_total_p50 := scenario_total
        delta_total_p50 := scenario_total - baseline_total } }

/-- The seven engineered feature columns of a feature row, bundled: the
claims about leakage and isolation quantify over exactly these. -/
def FRow.feats (r : FRow) :
    Option ℚ × Option ℚ × Option ℚ × Option ℚ × Option ℚ × Option ℚ ×
      Option ℚ :=
  (r.lag_1, r.lag_7, r.lag_28, r.roll_mean_7, r.roll_std_7_sq,
   r.roll_mean_28, r.roll_std_28_sq)

instance : IsTotal (ℕ × ℤ) keyLe :=
  ⟨by intro a b; unfold keyLe; omega⟩

instance : IsTrans (ℕ × ℤ) keyLe :=
  ⟨by intro a b c; unfold keyLe; omega⟩

instance : IsTotal HRow hle := ⟨fun a b => total_of keyLe a.key b.key⟩

instance : IsTrans HRow hle :=
  ⟨fun _ _ _ h h' => trans_of keyLe h h'⟩

instance : IsTotal FRow fle := ⟨fun a b => total_of keyLe a.key b.key⟩

instance : IsTrans FRow fle :=
  ⟨fun _ _ _ h h' => trans_of keyLe h h'⟩

instance : IsTotal FcRow fcle := ⟨fun a b => total_of keyLe a.key b.key⟩

instance : IsTrans FcRow fcle :=
  ⟨fun _ _ _ h h' => trans_of keyLe h h'⟩

instance : IsTotal FRow dle := ⟨by intro a b; unfold dle; omega⟩

instance : IsTrans FRow dle := ⟨by intro a b c; unfold dle; omega⟩

section SortLemmas

variable {α : Type} (r : α → α → Prop) [DecidableRel r]

/-- Inserting an element all of whose comparisons succeed puts it at the
front. -/
theorem orderedInsert_cons_of_forall (x : α) (l : List α)
    (h : ∀ z ∈ l, r x z) : l.orderedInsert r x = x :: l := by
  cases l with
  | nil => rfl
  | cons y l => exact List.orderedInsert_of_le r _ (h y (by simp))

/-- Filtering away the inserted element undoes an ordered insert. -/
theorem orderedInsert_filter_neg (p : α → Bool) (x : α)
    (hx : p x = false) :
    ∀ l : List α, (l.orderedInsert r x).filter p = l.filter p
  | [] => by simp [hx]
  | y :: l => by
    by_cases h : r x y
    · rw [List.orderedInsert_of_le r _ h]
      simp [List.filter_cons, hx]
    · simp only [List.orderedInsert, if_neg h, List.filter_cons]
      rw [orderedInsert_filter_neg p x hx l]

/-- On a sorted list, filtering commutes with inserting an element the
filter keeps. -/
theorem orderedInsert_filter_pos [IsTrans α r] (p : α → Bool) (x : α)
    (hx : p x = true) :
    ∀ l : List α, l.Sorted r →
      (l.orderedInsert r x).filter p = (l.filter p).orderedInsert r x
  | [], _ => by simp [hx]
  | y :: l, hs => by
    by_cases h : r x y
    · rw [List.orderedInsert_of_le r _ h]
      have hall : ∀ z ∈ (y :: l).filter p, r x z := by
        intro z hz
        have hz' := List.mem_of_mem_filter hz
        rcases List.mem_cons.mp hz' with rfl | hz'
        · exact h
        · exact trans_of r h (List.rel_of_sorted_cons hs _ hz')
      rw [orderedInsert_cons_of_forall r x _ hall]
      simp [List.filter_cons, hx]
    · simp only [List.orderedInsert, if_neg h, List.filter_cons]
      rw [orderedInsert_filter_pos p x hx l hs.of_cons]
      cases hy : p y with
      | true =>
        have hcons : (y :: (l.filter p)).orderedInsert r x
            = y :: (l.filter p).orderedInsert r x := by
          simp only [List.orderedInsert, if_neg h]
        simp [hy, hcons, h]
      | false => simp [hy]

/-- Filtering commutes with insertion sort (pandas: sorting then taking
a sub-frame equals taking the sub-frame then sorting). -/
theorem insertionSort_filter [IsTotal α r] [IsTrans α r] (p : α → Bool) :
    ∀ l : List α,
      (l.insertionSort r).filter p = (l.filter p).insertionSort r
  | [] => rfl
  | x :: l => by
    simp only [List.insertionSort, List.filter_cons]
    cases hx : p x with
    | true =>
      rw [orderedInsert_filter_pos r p x hx _ (List.sorted_insertionSort r _),
        insertionSort_filter p l]
      simp [hx, List.insertionSort]
    | false =>
      rw [orderedInsert_filter_neg r p x hx, insertionSort_filter p l]
      simp [hx]

/-- Ordered insertion is determined by the comparisons: pointwise
related inputs whose relation fixes the comparisons give pointwise
related outputs. -/
theorem orderedInsert_forall₂ {R : α → α → Prop}
    (hc : ∀ a a' b b', R a a' → R b b' → (r a b ↔ r a' b')) :
    ∀ {x x' : α} {l l' : List α}, R x x' → List.Forall₂ R l l' →
      List.Forall₂ R (l.orderedInsert r x) (l'.orderedInsert r x')
  | x, x', _, _, hx, List.Forall₂.nil => List.Forall₂.cons hx List.Forall₂.nil
  | x, x', _, _, hx, List.Forall₂.cons (a := y) (b := y') hy hl => by
    by_cases h : r x y
    · rw [List.orderedInsert_of_le r _ h,
        List.orderedInsert_of_le r _ ((hc _ _ _ _ hx hy).mp h)]
      exact List.Forall₂.cons hx (List.Forall₂.cons hy hl)
    · have h' : ¬ r x' y' := fun hh => h ((hc _ _ _ _ hx hy).mpr hh)
      simp only [List.orderedInsert, if_neg h, if_neg h']
      exact List.Forall₂.cons hy (orderedInsert_forall₂ hc hx hl)

/-- Insertion sort is determined by the comparisons. -/
theorem insertionSort_forall₂ {R : α → α → Prop}
    (hc : ∀ a a' b b', R a a' → R b b' → (r a b ↔ r a' b')) :
    ∀ {l l' : List α}, List.Forall₂ R l l' →
      List.Forall₂ R (l.insertionSort r) (l'.insertionSort r)
  | _, _, List.Forall₂.nil => List.Forall₂.nil
  | _, _, List.Forall₂.cons hx hl =>
    orderedInsert_forall₂ r hc hx (insertionSort_forall₂ hc hl)

end SortLemmas

namespace FeatureBuilder

/-- The `j`-th output row of the left-to-right feature walk is built
from all rows preceding it. -/
theorem buildAux_get? : ∀ (prev l : List HRow) (j : ℕ) (r : HRow),
    l.get? j = some r →
    (buildAux prev l).get? j = some (mkRow (prev ++ l.take j) r)
  | _, [], j, _, h => by simp at h
  | prev, x :: rest, 0, r, h => by
    simp only [List.get?] at h
    cases h
    simp [buildAux, List.take]
  | prev, x :: rest, j + 1, r, h => by
    simp only [List.get?] at h
    have := buildAux_get? (prev ++ [x]) rest j r h
    simpa [buildAux, List.take, List.append_assoc] using this

/-- The feature walk preserves the (store, date) key of every row. -/
theorem buildAux_keys : ∀ (prev l : List HRow),
    (buildAux prev l).map FRow.key = l.map HRow.key
  | _, [] => rfl
  | prev, x :: rest => by
    simp [buildAux, mkRow, FRow.key, HRow.key, buildAux_keys (prev ++ [x]) rest]

/-- A row's features depend only on the rows of its own group: filtering
the accumulated history to the row's own store changes nothing. -/
theorem mkRow_filter_store (prev : List HRow) (r : HRow) (A : ℕ)
    (hr : r.store = A) :
    mkRow (prev.filter (fun x => x.store = A)) r = mkRow prev r := by
  have hl : (prev.filter (fun x => x.store = A)).filter
      (fun x => x.store = r.store)
      = prev.filter (fun x => x.store = r.store) := by
    simp only [hr, List.filter_filter]
    apply List.filter_congr
    intro x _
    exact Bool.and_self _
  simp only [mkRow, hl]

/-- Restricting the feature walk's output to one store equals running
the walk on that store's rows alone. -/
theorem buildAux_filter (A : ℕ) : ∀ (prev l : List HRow),
    (buildAux prev l).filter (fun fr => fr.store = A)
      = buildAux (prev.filter (fun x => x.store = A))
          (l.filter (fun x => x.store = A))
  | _, [] => by simp [buildAux]
  | prev, x :: rest => by
    by_cases hx : x.store = A
    · simp only [buildAux, List.filter_cons]
      have hmk : (mkRow prev x).store = x.store := rfl
      rw [buildAux_filter A (prev ++ [x]) rest]
      simp [hmk, hx, List.filter_append, mkRow_filter_store prev x A hx, buildAux]
    · simp only [buildAux, List.filter_cons]
      have hmk : (mkRow prev x).store = x.store := rfl
      rw [buildAux_filter A (prev ++ [x]) rest]
      simp [hmk, hx, List.filter_append]

/-- Grouping isolation as an identity on tables: the feature rows
`build` computes for store `A`'s input rows are exactly the output of
`build` on the input restricted to store `A`. -/
theorem build_filter_store (t : List HRow) (A : ℕ) :
    (build t).filter (fun fr => fr.store = A)
      = build (t.filter (fun r => r.store = A)) := by
  unfold build
  rw [buildAux_filter A [] (t.insertionSort hle)]
  rw [insertionSort_filter hle (fun r => decide (r.store = A)) t]
  rfl

end FeatureBuilder

/-- C5: Grouping isolation of the Feature Builder.  For two distinct
entities A and B with overlapping date ranges, the lag and rolling
feature values computed for A's rows are identical in a run on a table
containing both A's and B's rows and in a run on the table restricted
to A's rows only.  Proved in the strongest form: for *any* input table,
the full feature rows `build` computes for store A's input rows equal,
as a list, the output of `build` on the input restricted to store A —
so every feature column (and every other column) agrees row for row. -/
theorem C5_grouping_isolation (t : List HRow) (A : ℕ) :
    (FeatureBuilder.build t).filter (fun fr => fr.store = A)
      = FeatureBuilder.build (t.filter (fun r => r.store = A)) :=
  FeatureBuilder.build_filter_store t A

section Forall₂Helpers

variable {α : Type} {β : Type}

/-- Strengthen a pointwise relation using membership in the left
list. -/
theorem forall₂_mem_imp {R S : α → β → Prop} :
    ∀ {l : List α} {l' : List β}, List.Forall₂ R l l' →
      (∀ a b, a ∈ l → R a b → S a b) → List.Forall₂ S l l'
  | _, _, List.Forall₂.nil, _ => List.Forall₂.nil
  | _, _, List.Forall₂.cons hx hl, h =>
    List.Forall₂.cons (h _ _ (by simp) hx)
      (forall₂_mem_imp hl (fun a b ha hr => h a b (by simp [ha]) hr))

/-- A pointwise relation that fixes a Boolean predicate descends to the
filtered lists. -/
theorem forall₂_filter {R : α → α → Prop} (p : α → Bool)
    (hp : ∀ a b, R a b → p a = p b) :
    ∀ {l l' : List α}, List.Forall₂ R l l' →
      List.Forall₂ R (l.filter p) (l'.filter p)
  | _, _, List.Forall₂.nil => List.Forall₂.nil
  | _, _, List.Forall₂.cons (a := x) (b := x') hx hl => by
    cases hpx : p x with
    | true =>
      have hpx' : p x' = true := (hp _ _ hx).symm.trans hpx
      simp only [List.filter_cons, hpx, hpx']
      exact List.Forall₂.cons hx (forall₂_filter p hp hl)
    | false =>
      have hpx' : p x' = false := (hp _ _ hx).symm.trans hpx
      simp only [List.filter_cons, hpx, hpx']
      exact forall₂_filter p hp hl

/-- Pointwise related lists have equal images under any function that
the relation fixes. -/
theorem forall₂_map_eq {R : α → α → Prop} {f : α → β} :
    ∀ {l l' : List α}, List.Forall₂ R l l' →
      (∀ a b, R a b → f a = f b) → l.map f = l'.map f
  | _, _, List.Forall₂.nil, _ => rfl
  | _, _, List.Forall₂.cons hx hl, hf => by
    simp [hf _ _ hx, forall₂_map_eq hl hf]

end Forall₂Helpers

/-- In a (store, date)-sorted table with no duplicate (store, date)
keys, every row before position `j` that shares position `j`'s store
has a strictly earlier date. -/
theorem take_group_date_lt {l : List HRow} (hs : l.Sorted hle)
    (hnd : (l.map HRow.key).Nodup) {j : ℕ} {r : HRow}
    (hj : l.get? j = some r) :
    ∀ x ∈ l.take j, x.store = r.store → x.date < r.date := by
  intro x hx hstx
  rw [List.mem_take_iff_getElem] at hx
  obtain ⟨i, hi, rfl⟩ := hx
  rw [List.get?_eq_some] at hj
  obtain ⟨hjl, hr⟩ := hj
  have hij : i < j := lt_of_lt_of_le hi (by omega)
  have hil : i < l.length := lt_of_lt_of_le hi (by omega)
  have hrel : hle l[i] l[j] :=
    hs.rel_get_of_lt (a := ⟨i, hil⟩) (b := ⟨j, hjl⟩) (by exact hij)
  have hp : l.Pairwise (fun a b => HRow.key a ≠ HRow.key b) := by
    rw [← List.pairwise_map]
    exact hnd
  have hne : HRow.key l[i] ≠ HRow.key l[j] :=
    List.Sorted.rel_get_of_lt hp (a := ⟨i, hil⟩) (b := ⟨j, hjl⟩)
      (by exact hij)
  have hstx' : l[i].store = l[j].store := by
    rw [← hr] at hstx
    exact hstx
  have hgoal : l[i].date < l[j].date := by
    have hdne : l[i].date ≠ l[j].date := by
      intro hd
      apply hne
      unfold HRow.key
      rw [hstx', hd]
    have hrel' : l[i].store < l[j].store ∨
        (l[i].store = l[j].store ∧ l[i].date ≤ l[j].date) := hrel
    rcases hrel' with h1 | ⟨h2, h3⟩
    · omega
    · omega
  rw [← hr]
  exact hgoal

/-- The engineered features of a built row depend only on the row's
store and on the `y` series of its group's earlier rows. -/
theorem mkRow_feats_congr (P P' : List HRow) (r r' : HRow)
    (hst : r.store = r'.store)
    (hys : (P.filter (fun x => x.store = r.store)).map (fun x => x.y)
         = (P'.filter (fun x => x.store = r'.store)).map (fun x => x.y)) :
    (FeatureBuilder.mkRow P r).feats = (FeatureBuilder.mkRow P' r').feats := by
  simp only [FeatureBuilder.mkRow, FRow.feats]
  simp only [hst] at hys ⊢
  rw [hys]

/-- C2: Leakage freedom of the Feature Builder.  The lag and rolling
feature columns `build` computes for the row of group `g` at date `D`
depend only on target values of rows strictly before `D` in the same
group: in a two-run comparison of tables that agree on every (store,
date) key and on the target of every group-`g` row dated before `D` —
so the target at `D` itself, targets of later `g` rows, and even
targets of *other* groups may all be perturbed — the seven
lag_1/lag_7/lag_28/roll_mean_7/roll_std_7/roll_mean_28/roll_std_28
values computed for the `(g, D)` row are unchanged.  The table is
assumed to have no duplicate (store, date) key (one row per entity and
day, the spec's data-model invariant). -/
theorem C2_leakage_free (t t' : List HRow) (g : ℕ) (D : ℤ)
    (hrel : List.Forall₂ (fun a b : HRow => a.store = b.store ∧
        a.date = b.date ∧ (a.store = g → a.date < D → a.y = b.y)) t t')
    (hnd : (t.map HRow.key).Nodup)
    (j : ℕ) (r : HRow)
    (hj : (t.insertionSort hle).get? j = some r)
    (hst : r.store = g) (hdt : r.date = D) :
    ((FeatureBuilder.build t).get? j).map FRow.feats
      = ((FeatureBuilder.build t').get? j).map FRow.feats := by
  have hc : ∀ a a' b b' : HRow,
      (a.store = a'.store ∧ a.date = a'.date ∧
        (a.store = g → a.date < D → a.y = a'.y)) →
      (b.store = b'.store ∧ b.date = b'.date ∧
        (b.store = g → b.date < D → b.y = b'.y)) →
      (hle a b ↔ hle a' b') := by
    intro a a' b b' ha hb
    obtain ⟨hs1, hd1, _⟩ := ha
    obtain ⟨hs2, hd2, _⟩ := hb
    unfold hle HRow.key
    rw [hs1, hd1, hs2, hd2]
  have hS := insertionSort_forall₂ hle hc hrel
  have hndS : ((t.insertionSort hle).map HRow.key).Nodup := by
    have hperm : List.Perm (t.insertionSort hle) t :=
      List.perm_insertionSort hle t
    exact ((hperm.map HRow.key).nodup_iff).mpr hnd
  have hsorted : (t.insertionSort hle).Sorted hle :=
    List.sorted_insertionSort hle t
  have hlen := hS.length_eq
  obtain ⟨hjl, hjr⟩ := List.get?_eq_some.mp hj
  have hjl' : j < (t'.insertionSort hle).length := by omega
  have hrr' : r.store = ((t'.insertionSort hle).get ⟨j, hjl'⟩).store ∧
      r.date = ((t'.insertionSort hle).get ⟨j, hjl'⟩).date ∧
      (r.store = g → r.date < D →
        r.y = ((t'.insertionSort hle).get ⟨j, hjl'⟩).y) := by
    have := (List.forall₂_iff_get.mp hS).2 j hjl hjl'
    rwa [hjr] at this
  have hb1 : (FeatureBuilder.build t).get? j
      = some (FeatureBuilder.mkRow ((t.insertionSort hle).take j) r) := by
    unfold FeatureBuilder.build
    have := FeatureBuilder.buildAux_get? [] (t.insertionSort hle) j r
      (List.get?_eq_some.mpr ⟨hjl, hjr⟩)
    simpa using this
  have hb2 : (FeatureBuilder.build t').get? j
      = some (FeatureBuilder.mkRow ((t'.insertionSort hle).take j)
          ((t'.insertionSort hle).get ⟨j, hjl'⟩)) := by
    unfold FeatureBuilder.build
    have := FeatureBuilder.buildAux_get? [] (t'.insertionSort hle) j
      ((t'.insertionSort hle).get ⟨j, hjl'⟩)
      (List.get?_eq_some.mpr ⟨hjl', rfl⟩)
    simpa using this
  have hfe : (FeatureBuilder.mkRow ((t.insertionSort hle).take j) r).feats
      = (FeatureBuilder.mkRow ((t'.insertionSort hle).take j)
          ((t'.insertionSort hle).get ⟨j, hjl'⟩)).feats := by
    apply mkRow_feats_congr
    · exact hrr'.1
    · have htake := List.forall₂_take j hS
      have hfilt := forall₂_filter (fun x : HRow => x.store = r.store)
        (fun a b hab => by simp [hab.1]) htake
      have hy : List.Forall₂ (fun a b : HRow => a.y = b.y)
          (((t.insertionSort hle).take j).filter
            (fun x => x.store = r.store))
          (((t'.insertionSort hle).take j).filter
            (fun x => x.store = r.store)) := by
        apply forall₂_mem_imp hfilt
        intro a b ha hab
        have hmem := List.mem_of_mem_filter ha
        have hsta : a.store = r.store := by
          simpa using List.of_mem_filter ha
        apply hab.2.2
        · rw [hsta, hst]
        · have hlt := take_group_date_lt hsorted hndS
            (List.get?_eq_some.mpr ⟨hjl, hjr⟩) a hmem hsta
          rw [hdt] at hlt
          exact hlt
      have hmap := forall₂_map_eq hy (fun a b h => h)
      simp only [← hrr'.1]
      exact hmap
  rw [hb1, hb2]
  simpa using hfe

/-- Witness for C2: a concrete two-row, one-store table; perturbing the
target at date 1 (6 → 99) leaves the features computed for date 1
unchanged. -/
theorem C2_witness :
    ((FeatureBuilder.build [⟨1, 0, 5⟩, ⟨1, 1, 6⟩]).get? 1).map FRow.feats
      = ((FeatureBuilder.build [⟨1, 0, 5⟩, ⟨1, 1, 99⟩]).get? 1).map
          FRow.feats := by
  exact C2_leakage_free [⟨1, 0, 5⟩, ⟨1, 1, 6⟩] [⟨1, 0, 5⟩, ⟨1, 1, 99⟩] 1 1
    (List.Forall₂.cons ⟨rfl, rfl, fun _ _ => rfl⟩
      (List.Forall₂.cons ⟨rfl, rfl, fun _ hd => absurd hd (by decide)⟩
        List.Forall₂.nil))
    (by decide) 1 ⟨1, 1, 6⟩ (by decide) rfl rfl

namespace score_store

/-- The horizon walk forecasts exactly the dates it is given, in
order. -/
theorem scoreDays_map_date (M : QModels) (sid : ℕ) :
    ∀ (ds : List ℤ) (yh : List ℚ),
      (scoreDays M sid ds yh).map (fun r => r.date) = ds
  | [], _ => rfl
  | d :: ds, yh => by
    simp [scoreDays, scoreDays_map_date M sid ds]

/-- Every row the horizon walk produces carries the walked entity's
id. -/
theorem scoreDays_store (M : QModels) (sid : ℕ) :
    ∀ (ds : List ℤ) (yh : List ℚ) (r : FcRow),
      r ∈ scoreDays M sid ds yh → r.store = sid
  | [], _, r, hr => by simp [scoreDays] at hr
  | d :: ds, yh, r, hr => by
    rcases List.mem_cons.mp hr with rfl | h
    · rfl
    · exact scoreDays_store M sid ds _ r h

/-- The horizon walk's output is (store, date)-sorted whenever the date
list is nondecreasing. -/
theorem scoreDays_sorted (M : QModels) (sid : ℕ) :
    ∀ (ds : List ℤ) (yh : List ℚ), ds.Pairwise (fun a b => a ≤ b) →
      (scoreDays M sid ds yh).Pairwise fcle
  | [], _, _ => List.Pairwise.nil
  | d :: ds, yh, h => by
    simp only [scoreDays]
    constructor
    · intro r hr
      have hst := scoreDays_store M sid ds _ r hr
      have hd : r.date ∈ ds := by
        rw [← scoreDays_map_date M sid ds
          (yh ++ [M.m50 (featFrom yh d)])]
        exact List.mem_map_of_mem _ hr
      have hled : d ≤ r.date := (List.pairwise_cons.mp h).1 _ hd
      exact Or.inr ⟨hst.symm, hled⟩
    · exact scoreDays_sorted M sid ds _ (List.pairwise_cons.mp h).2

/-- The future dates are nondecreasing. -/
theorem futureDates_pairwise (f : ℤ) (h : ℕ) :
    (futureDates f h).Pairwise (fun a b => a ≤ b) := by
  rw [List.pairwise_iff_getElem]
  intro i j hi hj hij
  simp only [futureDates, List.getElem_map, List.getElem_range]
  omega

/-- Consecutive calendar days: each future date is the previous one
plus one. -/
theorem futureDates_chain (f : ℤ) (h : ℕ) :
    (futureDates f h).Chain' (fun a b => b = a + 1) := by
  rw [List.chain'_iff_get]
  intro i hi
  simp only [futureDates, List.get_eq_getElem, List.getElem_map,
    List.getElem_range]
  push_cast
  ring

/-- No duplicate future dates. -/
theorem futureDates_nodup (f : ℤ) (h : ℕ) :
    (futureDates f h).Nodup := by
  have hinj : Function.Injective (fun k : ℕ => f + 1 + (k : ℤ)) := by
    intro a b hab
    simp only at hab
    omega
  exact (List.nodup_range h).map hinj

/-- Horizon length. -/
theorem futureDates_length (f : ℤ) (h : ℕ) :
    (futureDates f h).length = h := by
  simp [futureDates]

/-- Membership is preserved by first-appearance deduplication. -/
theorem mem_firstUniques : ∀ (l : List ℕ) (x : ℕ),
    x ∈ firstUniques l ↔ x ∈ l
  | [], x => by simp [firstUniques]
  | a :: l, x => by
    simp only [firstUniques, List.mem_cons, List.mem_filter]
    constructor
    · rintro (rfl | ⟨h1, _⟩)
      · exact Or.inl rfl
      · exact Or.inr ((mem_firstUniques l x).mp h1)
    · rintro (rfl | h)
      · exact Or.inl rfl
      · by_cases hx : x = a
        · exact Or.inl hx
        · exact Or.inr ⟨(mem_firstUniques l x).mpr h, by simpa using hx⟩

/-- First-appearance deduplication yields distinct keys — each group is
scored once. -/
theorem nodup_firstUniques : ∀ l : List ℕ, (firstUniques l).Nodup
  | [] => List.nodup_nil
  | a :: l => by
    rw [firstUniques, List.nodup_cons]
    refine ⟨?_, (nodup_firstUniques l).filter _⟩
    intro ha
    have := List.of_mem_filter ha
    simp at this

/-- Restricting the concatenated per-group outputs to one store id
selects exactly that store's group output (each group emits only its
own store's rows, and groups are pairwise distinct). -/
theorem filter_flatMap_store (f : ℕ → List FcRow)
    (hf : ∀ sid r, r ∈ f sid → r.store = sid) (k : ℕ) :
    ∀ ids : List ℕ, ids.Nodup →
      (ids.flatMap f).filter (fun r => r.store = k)
        = if k ∈ ids then f k else []
  | [], _ => by simp
  | i :: ids, hnd => by
    rw [List.flatMap_cons, List.filter_append]
    have hnd' := (List.nodup_cons.mp hnd).2
    have hko := (List.nodup_cons.mp hnd).1
    by_cases hik : i = k
    · subst hik
      have h1 : (f i).filter (fun r => r.store = i) = f i :=
        List.filter_eq_self.mpr (fun r hr => by simp [hf i r hr])
      have h2 : (ids.flatMap f).filter (fun r => r.store = i) = [] := by
        rw [filter_flatMap_store f hf i ids hnd']
        simp [hko]
      simp [h1, h2]
    · have h1 : (f i).filter (fun r => r.store = k) = [] := by
        rw [List.filter_eq_nil_iff]
        intro r hr
        simp [hf i r hr, hik]
      have hki : ¬ (k = i) := fun h => hik h.symm
      rw [h1, filter_flatMap_store f hf k ids hnd']
      by_cases hm : k ∈ ids
      · simp [hm, List.mem_cons]
      · simp [hm, List.mem_cons, hki]

/-- The forecast rows `main` emits for store `k`: the horizon walk over
the shared future dates, seeded with `k`'s cleaned history — or nothing
at all, when `k` has no surviving history row. -/
theorem main_rows_filter (M : QModels) (t : List FRow) (k : ℕ) :
    (main M t).rows.filter (fun r => r.store = k)
      = if k ∈ (cleanHist t).map (fun r => r.store)
        then scoreDays M k (futureDates (lastDate t) HORIZON_DAYS)
          ((((cleanHist t).filter
              (fun r => r.store = k)).insertionSort dle).map
            (fun r => r.y))
        else [] := by
  unfold main
  simp only
  rw [insertionSort_filter fcle (fun r => decide (r.store = k)) _]
  rw [filter_flatMap_store _
    (fun sid r hr => scoreDays_store M sid _ _ r hr) k _
    (nodup_firstUniques _)]
  by_cases hm : k ∈ firstUniques ((cleanHist t).map (fun r => r.store))
  · rw [if_pos hm, if_pos ((mem_firstUniques _ _).mp hm)]
    apply List.Sorted.insertionSort_eq
    exact scoreDays_sorted M k _ _ (futureDates_pairwise _ _)
  · rw [if_neg hm, if_neg (fun h => hm ((mem_firstUniques _ _).mpr h))]
    rfl

end score_store

/-- C1 (amended): for every entity group present in the NaN-filtered
history table, the recursive scorer produces exactly `HORIZON_DAYS`
(28) forecast rows for that entity, with consecutive calendar dates, no
gaps and no duplicates — starting the day after the *global* last known
history date (`df["date"].max()` over the whole filtered table, shared
by all entities), not the day after that entity's own last history
date.  The two starting points coincide only for entities whose history
extends to the table's overall last date (see `C1_counterexample`). -/
theorem C1_horizon_completeness_global_start (M : score_store.QModels)
    (t : List FRow) (k : ℕ)
    (hk : k ∈ (score_store.cleanHist t).map (fun r => r.store)) :
    ((score_store.main M t).rows.filter
        (fun r => r.store = k)).length = HORIZON_DAYS ∧
    ((score_store.main M t).rows.filter
        (fun r => r.store = k)).map (fun r => r.date)
      = score_store.futureDates (score_store.lastDate t) HORIZON_DAYS ∧
    (((score_store.main M t).rows.filter
        (fun r => r.store = k)).map (fun r => r.date)).Chain'
      (fun a b => b = a + 1) ∧
    (((score_store.main M t).rows.filter
        (fun r => r.store = k)).map (fun r => r.date)).Nodup := by
  have h1 := score_store.main_rows_filter M t k
  rw [if_pos hk] at h1
  have hdates : ((score_store.main M t).rows.filter
      (fun r => r.store = k)).map (fun r => r.date)
      = score_store.futureDates (score_store.lastDate t) HORIZON_DAYS := by
    rw [h1]
    exact score_store.scoreDays_map_date M k _ _
  refine ⟨?_, hdates, ?_, ?_⟩
  · have hlen := congrArg List.length hdates
    simpa [score_store.futureDates_length] using hlen
  · rw [hdates]
    exact score_store.futureDates_chain _ _
  · rw [hdates]
    exact score_store.futureDates_nodup _ _

/-- Witness for C1 at a concrete table: store 1 (history up to the
global last date 10) receives 28 forecast rows. -/
theorem C1_witness :
    ((score_store.main ⟨fun _ => 1, fun _ => 2, fun _ => 3⟩
      [⟨1, 9, 5, some 1, some 1, some 1, some 1, some 1, some 1, some 1⟩,
       ⟨1, 10, 6, some 1, some 1, some 1, some 1, some 1, some 1, some 1⟩,
       ⟨2, 4, 7, some 1, some 1, some 1, some 1, some 1, some 1, some 1⟩,
       ⟨2, 5, 8, some 1, some 1, some 1, some 1, some 1, some 1, some 1⟩]).rows.filter
        (fun r => r.store = 1)).length = HORIZON_DAYS :=
  (C1_horizon_completeness_global_start ⟨fun _ => 1, fun _ => 2, fun _ => 3⟩
    [⟨1, 9, 5, some 1, some 1, some 1, some 1, some 1, some 1, some 1⟩,
     ⟨1, 10, 6, some 1, some 1, some 1, some 1, some 1, some 1, some 1⟩,
     ⟨2, 4, 7, some 1, some 1, some 1, some 1, some 1, some 1, some 1⟩,
     ⟨2, 5, 8, some 1, some 1, some 1, some 1, some 1, some 1, some 1⟩]
    1 (by decide)).1

/-- C1 counterexample: the claim as stated — forecasts start the day
after *that entity's* last known history date — is false.  In this
table store 2's cleaned history ends at date 5, so the claim requires
its first forecast date to be 6; the code's first forecast date for
store 2 is 11, the day after the *global* maximum history date 10
(contributed by store 1). -/
theorem C1_counterexample :
    (((score_store.cleanHist
      [⟨1, 9, 5, some 1, some 1, some 1, some 1, some 1, some 1, some 1⟩,
       ⟨1, 10, 6, some 1, some 1, some 1, some 1, some 1, some 1, some 1⟩,
       ⟨2, 4, 7, some 1, some 1, some 1, some 1, some 1, some 1, some 1⟩,
       ⟨2, 5, 8, some 1, some 1, some 1, some 1, some 1, some 1,
         some 1⟩]).filter (fun r => r.store = 2)).map (fun r => r.date)
      = [4, 5]) ∧
    ((((score_store.main ⟨fun _ => 1, fun _ => 2, fun _ => 3⟩
      [⟨1, 9, 5, some 1, some 1, some 1, some 1, some 1, some 1, some 1⟩,
       ⟨1, 10, 6, some 1, some 1, some 1, some 1, some 1, some 1, some 1⟩,
       ⟨2, 4, 7, some 1, some 1, some 1, some 1, some 1, some 1, some 1⟩,
       ⟨2, 5, 8, some 1, some 1, some 1, some 1, some 1, some 1,
         some 1⟩]).rows.filter (fun r => r.store = 2)).map
        (fun r => r.date)).head? = some 11) ∧
    (11 : ℤ) ≠ 5 + 1 := by
  refine ⟨by decide, ?_, by decide⟩
  decide

/-- C3: at every step of the recursive horizon walk, the value appended
to the entity's history buffer after recording a day's forecast row is
that day's P50 (median) prediction — never P10 or P90 — so the buffer
used to compute day `k`'s features is exactly the seed history followed
by the P50 predictions of the `k` earlier future days: row `k` of the
walk is predicted from
`featFrom (seed ++ (first k rows).map p50) (day k)`, with all three
quantile models applied to that same single feature row. -/
theorem C3_median_feedback (M : score_store.QModels) (sid : ℕ) :
    ∀ (ds : List ℤ) (seed : List ℚ) (k : ℕ), k < ds.length →
      ∃ d : ℤ, ds.get? k = some d ∧
        (score_store.scoreDays M sid ds seed).get? k
          = some ⟨sid, d,
              M.m10 (score_store.featFrom
                (seed ++ ((score_store.scoreDays M sid ds
                  seed).take k).map (fun r => r.p50)) d),
              M.m50 (score_store.featFrom
                (seed ++ ((score_store.scoreDays M sid ds
                  seed).take k).map (fun r => r.p50)) d),
              M.m90 (score_store.featFrom
                (seed ++ ((score_store.scoreDays M sid ds
                  seed).take k).map (fun r => r.p50)) d)⟩
  | [], _, k, hk => by simp at hk
  | d :: ds, seed, 0, _ => by
    refine ⟨d, rfl, ?_⟩
    simp [score_store.scoreDays]
  | d :: ds, seed, k + 1, hk => by
    obtain ⟨d', hd', hrow⟩ := C3_median_feedback M sid ds
      (seed ++ [M.m50 (score_store.featFrom seed d)]) k
      (by simpa using hk)
    refine ⟨d', by simpa using hd', ?_⟩
    have hunfold : score_store.scoreDays M sid (d :: ds) seed
        = ⟨sid, d, M.m10 (score_store.featFrom seed d),
            M.m50 (score_store.featFrom seed d),
            M.m90 (score_store.featFrom seed d)⟩
          :: score_store.scoreDays M sid ds
              (seed ++ [M.m50 (score_store.featFrom seed d)]) := rfl
    rw [hunfold, List.get?_cons_succ, List.take_succ_cons, List.map_cons]
    simp only [← List.append_cons] at hrow
    exact hrow

/-- Witness for C3: a two-day walk with seed history [10]; day 1 is
predicted from the buffer [10] extended by day 0's P50 prediction. -/
theorem C3_witness :
    ∃ d : ℤ, ([0, 1] : List ℤ).get? 1 = some d ∧
      (score_store.scoreDays ⟨fun _ => 1, fun _ => 2, fun _ => 3⟩ 5
        [0, 1] [10]).get? 1
        = some ⟨5, d,
            (⟨fun _ => 1, fun _ => 2, fun _ => 3⟩ :
              score_store.QModels).m10 (score_store.featFrom
              ([10] ++ ((score_store.scoreDays
                ⟨fun _ => 1, fun _ => 2, fun _ => 3⟩ 5 [0, 1]
                [10]).take 1).map (fun r => r.p50)) d),
            (⟨fun _ => 1, fun _ => 2, fun _ => 3⟩ :
              score_store.QModels).m50 (score_store.featFrom
              ([10] ++ ((score_store.scoreDays
                ⟨fun _ => 1, fun _ => 2, fun _ => 3⟩ 5 [0, 1]
                [10]).take 1).map (fun r => r.p50)) d),
            (⟨fun _ => 1, fun _ => 2, fun _ => 3⟩ :
              score_store.QModels).m90 (score_store.featFrom
              ([10] ++ ((score_store.scoreDays
                ⟨fun _ => 1, fun _ => 2, fun _ => 3⟩ 5 [0, 1]
                [10]).take 1).map (fun r => r.p50)) d)⟩ :=
  C3_median_feedback ⟨fun _ => 1, fun _ => 2, fun _ => 3⟩ 5 [0, 1] [10]
    1 (by decide)

namespace FeatureBuilder

/-- `shift(k)` is missing exactly when the group has fewer than `k`
earlier rows. -/
theorem lagOf_none_iff (k : ℕ) (hk : 1 ≤ k) (ys : List ℚ) :
    lagOf k ys = none ↔ ys.length < k := by
  unfold lagOf
  split_ifs with h
  · rw [List.get?_eq_none]
    omega
  · simp
    omega

/-- `shift(k)` on sufficient history reads the value `k` back. -/
theorem lagOf_of_le (k : ℕ) (ys : List ℚ) (h : k ≤ ys.length) :
    lagOf k ys = ys.get? (ys.length - k) := by
  unfold lagOf
  rw [if_pos h]

/-- `rolling(w).mean()` is missing exactly when fewer than `w` earlier
values exist. -/
theorem rollMeanOf_none_iff (w : ℕ) (ys : List ℚ) :
    rollMeanOf w ys = none ↔ ys.length < w := by
  unfold rollMeanOf
  split_ifs with h
  · simp
    omega
  · simp
    omega

/-- `rolling(w).std()` is missing exactly when fewer than `w` earlier
values exist. -/
theorem rollVarOf_none_iff (w : ℕ) (ys : List ℚ) :
    rollVarOf w ys = none ↔ ys.length < w := by
  unfold rollVarOf
  split_ifs with h
  · simp
    omega
  · simp
    omega

end FeatureBuilder

/-- C6: the Feature Builder's missing-value policy, read off row `j` of
`build`'s output.  Writing `pre` for the `y` values of the strictly
earlier same-store rows of the sorted frame: `lag_k` (k ∈ {1, 7, 28})
is missing iff fewer than `k` prior rows exist, and otherwise reads the
value `k` rows back; each rolling statistic over window `w` ∈ {7, 28}
is missing iff fewer than `w` prior rows exist, and otherwise is
computed from exactly the `w` observations ending the row before (the
trailing `w` values of `pre`), the mean as `sum/w` and the squared
standard deviation with the sample N−1 denominator (`/6`, `/27`); in
particular whenever the window has fewer than 2 observations the
standard deviation is missing, not zero. -/
theorem C6_builder_missing_policy (t : List HRow) (j : ℕ) (r : HRow)
    (hj : (t.insertionSort hle).get? j = some r) :
    ∃ fr : FRow, (FeatureBuilder.build t).get? j = some fr ∧
      ((fr.lag_1 = none ↔ (((t.insertionSort hle).take j).filter
          (fun x => x.store = r.store)).length < 1) ∧
       (fr.lag_7 = none ↔ (((t.insertionSort hle).take j).filter
          (fun x => x.store = r.store)).length < 7) ∧
       (fr.lag_28 = none ↔ (((t.insertionSort hle).take j).filter
          (fun x => x.store = r.store)).length < 28) ∧
       (fr.roll_mean_7 = none ↔ (((t.insertionSort hle).take j).filter
          (fun x => x.store = r.store)).length < 7) ∧
       (fr.roll_std_7_sq = none ↔ (((t.insertionSort hle).take j).filter
          (fun x => x.store = r.store)).length < 7) ∧
       (fr.roll_mean_28 = none ↔ (((t.insertionSort hle).take j).filter
          (fun x => x.store = r.store)).length < 28) ∧
       (fr.roll_std_28_sq = none ↔ (((t.insertionSort hle).take
          j).filter (fun x => x.store = r.store)).length < 28) ∧
       (((((t.insertionSort hle).take j).filter
          (fun x => x.store = r.store)).length < 2) →
          fr.roll_std_7_sq = none ∧ fr.roll_std_28_sq = none) ∧
       (∀ w : ℕ, w = 7 ∨ w = 28 →
         w ≤ ((((t.insertionSort hle).take j).filter
            (fun x => x.store = r.store)).map (fun x => x.y)).length →
         ∃ rest win : List ℚ,
           ((((t.insertionSort hle).take j).filter
             (fun x => x.store = r.store)).map (fun x => x.y))
             = rest ++ win ∧
           win.length = w ∧
           (w = 7 → fr.roll_mean_7 = some (win.sum / 7) ∧
             fr.roll_std_7_sq = some ((win.map
               (fun x => (x - win.sum / 7) ^ 2)).sum / 6)) ∧
           (w = 28 → fr.roll_mean_28 = some (win.sum / 28) ∧
             fr.roll_std_28_sq = some ((win.map
               (fun x => (x - win.sum / 28) ^ 2)).sum / 27)))) := by
  have hb := FeatureBuilder.buildAux_get? [] (t.insertionSort hle) j r hj
  refine ⟨FeatureBuilder.mkRow ([] ++ (t.insertionSort hle).take j) r,
    by simpa [FeatureBuilder.build] using hb, ?_⟩
  simp only [List.nil_append]
  set pre := ((t.insertionSort hle).take j).filter
    (fun x => x.store = r.store) with hpre
  have hys : (FeatureBuilder.mkRow ((t.insertionSort hle).take j) r).lag_1
      = FeatureBuilder.lagOf 1 (pre.map (fun x => x.y)) := rfl
  have hlen : (pre.map (fun x => x.y)).length = pre.length :=
    List.length_map _ _
  refine ⟨?_, ?_, ?_, ?_, ?_, ?_, ?_, ?_, ?_⟩
  · rw [hys, FeatureBuilder.lagOf_none_iff 1 (by omega), hlen]
  · show FeatureBuilder.lagOf 7 (pre.map (fun x => x.y)) = none ↔ _
    rw [FeatureBuilder.lagOf_none_iff 7 (by omega), hlen]
  · show FeatureBuilder.lagOf 28 (pre.map (fun x => x.y)) = none ↔ _
    rw [FeatureBuilder.lagOf_none_iff 28 (by omega), hlen]
  · show FeatureBuilder.rollMeanOf 7 (pre.map (fun x => x.y)) = none ↔ _
    rw [FeatureBuilder.rollMeanOf_none_iff 7, hlen]
  · show FeatureBuilder.rollVarOf 7 (pre.map (fun x => x.y)) = none ↔ _
    rw [FeatureBuilder.rollVarOf_none_iff 7, hlen]
  · show FeatureBuilder.rollMeanOf 28 (pre.map (fun x => x.y)) = none ↔ _
    rw [FeatureBuilder.rollMeanOf_none_iff 28, hlen]
  · show FeatureBuilder.rollVarOf 28 (pre.map (fun x => x.y)) = none ↔ _
    rw [FeatureBuilder.rollVarOf_none_iff 28, hlen]
  · intro h2
    constructor
    · show FeatureBuilder.rollVarOf 7 (pre.map (fun x => x.y)) = none
      rw [FeatureBuilder.rollVarOf_none_iff 7, hlen]
      omega
    · show FeatureBuilder.rollVarOf 28 (pre.map (fun x => x.y)) = none
      rw [FeatureBuilder.rollVarOf_none_iff 28, hlen]
      omega
  · intro w hw hwle
    refine ⟨(pre.map (fun x => x.y)).take
        ((pre.map (fun x => x.y)).length - w),
      lastN w (pre.map (fun x => x.y)),
      (List.take_append_drop _ _).symm,
      by simp only [lastN, List.length_drop]; omega, ?_, ?_⟩
    · rintro rfl
      have hwin : (lastN 7 (pre.map (fun x => x.y))).length = 7 := by
        simp only [lastN, List.length_drop]
        omega
      constructor
      · show FeatureBuilder.rollMeanOf 7 (pre.map (fun x => x.y))
          = some ((lastN 7 (pre.map (fun x => x.y))).sum / 7)
        unfold FeatureBuilder.rollMeanOf
        rw [if_pos (by omega)]
        unfold mean
        rw [hwin]
        norm_num
      · show FeatureBuilder.rollVarOf 7 (pre.map (fun x => x.y))
          = some (((lastN 7 (pre.map (fun x => x.y))).map
            (fun x => (x - (lastN 7 (pre.map (fun x => x.y))).sum / 7)
              ^ 2)).sum / 6)
        unfold FeatureBuilder.rollVarOf
        rw [if_pos (by omega)]
        unfold sampleVar mean
        rw [hwin]
        norm_num
    · rintro rfl
      have hwin : (lastN 28 (pre.map (fun x => x.y))).length = 28 := by
        simp only [lastN, List.length_drop]
        omega
      constructor
      · show FeatureBuilder.rollMeanOf 28 (pre.map (fun x => x.y))
          = some ((lastN 28 (pre.map (fun x => x.y))).sum / 28)
        unfold FeatureBuilder.rollMeanOf
        rw [if_pos (by omega)]
        unfold mean
        rw [hwin]
        norm_num
      · show FeatureBuilder.rollVarOf 28 (pre.map (fun x => x.y))
          = some (((lastN 28 (pre.map (fun x => x.y))).map
            (fun x => (x - (lastN 28 (pre.map (fun x => x.y))).sum / 28)
              ^ 2)).sum / 27)
        unfold FeatureBuilder.rollVarOf
        rw [if_pos (by omega)]
        unfold sampleVar mean
        rw [hwin]
        norm_num

/-- Witness for C6 at a one-row table (row at group position 0: all
lag/rolling features missing). -/
theorem C6_witness :
    ∃ fr : FRow, (FeatureBuilder.build [⟨1, 0, 2⟩]).get? 0 = some fr ∧
      (fr.lag_1 = none ↔
        (((([⟨1, 0, 2⟩] : List HRow).insertionSort hle).take 0).filter
          (fun x => x.store = 1)).length < 1) := by
  obtain ⟨fr, h1, h2, _⟩ :=
    C6_builder_missing_policy [⟨1, 0, 2⟩] 0 ⟨1, 0, 2⟩ (by decide)
  exact ⟨fr, h1, h2⟩

/-- C7: the scorer's numeric-edge policy.  For each future day the
feature row is computed from the history buffer `yh` as follows:
`roll_mean_7`/`roll_std_7` and `roll_mean_28`/`roll_std_28` are taken
over the buffer's trailing `min(7, len)` and `min(28, len)` entries
respectively (the whole buffer when it is shorter than the window); the
standard deviation is the sample (ddof = 1) standard deviation of those
entries — its square shown here with the explicit N−1 denominator — and
it equals 0, not missing, whenever the window holds fewer than two
values (the `roll_std_*` fields are total, non-optional values). -/
theorem C7_scoring_edge_policy (yh : List ℚ) (d : ℤ) :
    ∃ w7 w28 : List ℚ,
      yh = yh.take (yh.length - 7) ++ w7 ∧
      w7.length = min 7 yh.length ∧
      yh = yh.take (yh.length - 28) ++ w28 ∧
      w28.length = min 28 yh.length ∧
      (score_store.featFrom yh d).roll_mean_7 = w7.sum / w7.length ∧
      (score_store.featFrom yh d).roll_mean_28 = w28.sum / w28.length ∧
      (score_store.featFrom yh d).roll_std_7_sq
        = (if 2 ≤ w7.length
           then (w7.map (fun x => (x - w7.sum / w7.length) ^ 2)).sum
             / ((w7.length : ℚ) - 1)
           else 0) ∧
      (score_store.featFrom yh d).roll_std_28_sq
        = (if 2 ≤ w28.length
           then (w28.map (fun x => (x - w28.sum / w28.length) ^ 2)).sum
             / ((w28.length : ℚ) - 1)
           else 0) ∧
      (yh.length < 2 → (score_store.featFrom yh d).roll_std_7_sq = 0 ∧
        (score_store.featFrom yh d).roll_std_28_sq = 0) := by
  have hl7 : (lastN 7 yh).length = min 7 yh.length := by
    simp only [lastN, List.length_drop]
    omega
  have hl28 : (lastN 28 yh).length = min 28 yh.length := by
    simp only [lastN, List.length_drop]
    omega
  refine ⟨lastN 7 yh, lastN 28 yh,
    (List.take_append_drop _ _).symm, hl7,
    (List.take_append_drop _ _).symm, hl28, rfl, rfl, ?_, ?_, ?_⟩
  · by_cases h : 2 ≤ (lastN 7 yh).length
    · rw [if_pos h]
      show (if 1 < (lastN 7 yh).length then sampleVar (lastN 7 yh)
        else 0) = _
      rw [if_pos (by omega)]
      rfl
    · rw [if_neg h]
      show (if 1 < (lastN 7 yh).length then sampleVar (lastN 7 yh)
        else 0) = 0
      rw [if_neg (by omega)]
  · by_cases h : 2 ≤ (lastN 28 yh).length
    · rw [if_pos h]
      show (if 1 < (lastN 28 yh).length then sampleVar (lastN 28 yh)
        else 0) = _
      rw [if_pos (by omega)]
      rfl
    · rw [if_neg h]
      show (if 1 < (lastN 28 yh).length then sampleVar (lastN 28 yh)
        else 0) = 0
      rw [if_neg (by omega)]
  · intro h2
    constructor
    · show (if 1 < (lastN 7 yh).length then sampleVar (lastN 7 yh)
        else 0) = 0
      rw [if_neg (by omega)]
    · show (if 1 < (lastN 28 yh).length then sampleVar (lastN 28 yh)
        else 0) = 0
      rw [if_neg (by omega)]

/-- C4: scenario linearity and identity.  For any forecast table `F`
and any delta `d`, `apply_price_scenario F d` returns a scenario table
whose `p10_scenario`/`p50_scenario`/`p90_scenario` columns equal the
corresponding baseline columns multiplied by `1 + d/100`, with the
baseline columns left intact (both in the returned `baseline` table and
as the untouched `p10`/`p50`/`p90` columns of the scenario table); the
multiplier is `1 + d/100`, and for `d = 0` it is 1 and every scenario
column equals its baseline column. -/
theorem C4_scenario_linearity (F : List FcRow) (d : ℚ) :
    (apply_price_scenario F d).baseline = F ∧
    (apply_price_scenario F d).scenario.map (fun r => r.p10_scenario)
      = F.map (fun r => r.p10 * (1 + d / 100)) ∧
    (apply_price_scenario F d).scenario.map (fun r => r.p50_scenario)
      = F.map (fun r => r.p50 * (1 + d / 100)) ∧
    (apply_price_scenario F d).scenario.map (fun r => r.p90_scenario)
      = F.map (fun r => r.p90 * (1 + d / 100)) ∧
    (apply_price_scenario F d).scenario.map (fun r => r.p10)
      = F.map (fun r => r.p10) ∧
    (apply_price_scenario F d).scenario.map (fun r => r.p50)
      = F.map (fun r => r.p50) ∧
    (apply_price_scenario F d).scenario.map (fun r => r.p90)
      = F.map (fun r => r.p90) ∧
    (apply_price_scenario F d).summary.multiplier = 1 + d / 100 ∧
    (d = 0 →
      (apply_price_scenario F d).scenario.map (fun r => r.p10_scenario)
        = F.map (fun r => r.p10) ∧
      (apply_price_scenario F d).scenario.map (fun r => r.p50_scenario)
        = F.map (fun r => r.p50) ∧
      (apply_price_scenario F d).scenario.map (fun r => r.p90_scenario)
        = F.map (fun r => r.p90) ∧
      (apply_price_scenario F d).summary.multiplier = 1) := by
  refine ⟨rfl, ?_, ?_, ?_, ?_, ?_, ?_, rfl, ?_⟩
  · simp [apply_price_scenario, List.map_map, Function.comp]
  · simp [apply_price_scenario, List.map_map, Function.comp]
  · simp [apply_price_scenario, List.map_map, Function.comp]
  · simp [apply_price_scenario, List.map_map, Function.comp]
  · simp [apply_price_scenario, List.map_map, Function.comp]
  · simp [apply_price_scenario, List.map_map, Function.comp]
  · rintro rfl
    refine ⟨?_, ?_, ?_, ?_⟩
    · simp [apply_price_scenario, List.map_map, Function.comp]
    · simp [apply_price_scenario, List.map_map, Function.comp]
    · simp [apply_price_scenario, List.map_map, Function.comp]
    · norm_num [apply_price_scenario]

/-- Witness for C4: concrete two-row table at `d = 0` (the identity
case), extracted by applying the theorem at that input. -/
theorem C4_witness :
    (apply_price_scenario [⟨1, 3, 10, 20, 30⟩, ⟨1, 4, 11, 21, 31⟩]
        0).scenario.map (fun r => r.p50_scenario)
      = ([⟨1, 3, 10, 20, 30⟩, ⟨1, 4, 11, 21, 31⟩] : List FcRow).map
        (fun r => r.p50) :=
  ((C4_scenario_linearity [⟨1, 3, 10, 20, 30⟩, ⟨1, 4, 11, 21, 31⟩]
    0).2.2.2.2.2.2.2.2 rfl).2.1

/-- C8 (amended): an entity whose seed history is empty at scoring time
(no rows survive the NaN filter) is skipped *silently*: it contributes
no forecast rows, the run continues and still produces the full
28-row horizon for every entity that does have surviving history — but
no skip report of any kind is emitted (the script's only output besides
the forecast table is the final "Wrote: ..." summary line; there is no
per-entity diagnostic).  The claim's "and reports it" clause is false,
see `C8_counterexample`. -/
theorem C8_silent_skip (M : score_store.QModels) (t : List FRow)
    (s k : ℕ)
    (hs : s ∉ (score_store.cleanHist t).map (fun r => r.store))
    (hk : k ∈ (score_store.cleanHist t).map (fun r => r.store)) :
    ((score_store.main M t).rows.filter (fun r => r.store = s)) = [] ∧
    ((score_store.main M t).rows.filter (fun r => r.store = k)).length
      = HORIZON_DAYS ∧
    (score_store.main M t).skipReports = [] := by
  refine ⟨?_, ?_, rfl⟩
  · have h1 := score_store.main_rows_filter M t s
    rw [if_neg hs] at h1
    exact h1
  · have h1 := score_store.main_rows_filter M t k
    rw [if_pos hk] at h1
    rw [h1]
    have h2 := congrArg List.length (score_store.scoreDays_map_date M k
      (score_store.futureDates (score_store.lastDate t) HORIZON_DAYS)
      ((((score_store.cleanHist t).filter
        (fun r => r.store = k)).insertionSort dle).map (fun r => r.y)))
    simpa [score_store.futureDates_length] using h2

/-- Witness for C8: store 2's only row has a missing feature, so its
seed is empty after `dropna`; store 1 survives. -/
theorem C8_witness :
    ((score_store.main ⟨fun _ => 1, fun _ => 2, fun _ => 3⟩
      [⟨1, 0, 5, some 1, some 1, some 1, some 1, some 1, some 1, some 1⟩,
       ⟨2, 0, 6, some 1, some 1, none, some 1, some 1, some 1,
         some 1⟩]).rows.filter (fun r => r.store = 2)) = [] ∧
    ((score_store.main ⟨fun _ => 1, fun _ => 2, fun _ => 3⟩
      [⟨1, 0, 5, some 1, some 1, some 1, some 1, some 1, some 1, some 1⟩,
       ⟨2, 0, 6, some 1, some 1, none, some 1, some 1, some 1,
         some 1⟩]).rows.filter (fun r => r.store = 1)).length
      = HORIZON_DAYS ∧
    (score_store.main ⟨fun _ => 1, fun _ => 2, fun _ => 3⟩
      [⟨1, 0, 5, some 1, some 1, some 1, some 1, some 1, some 1, some 1⟩,
       ⟨2, 0, 6, some 1, some 1, none, some 1, some 1, some 1,
         some 1⟩]).skipReports = [] :=
  C8_silent_skip ⟨fun _ => 1, fun _ => 2, fun _ => 3⟩
    [⟨1, 0, 5, some 1, some 1, some 1, some 1, some 1, some 1, some 1⟩,
     ⟨2, 0, 6, some 1, some 1, none, some 1, some 1, some 1, some 1⟩]
    2 1 (by decide) (by decide)

/-- C8 counterexample: the claim as stated requires the skipped entity
to be *reported*.  Here store 2 has input rows but none survive the NaN
filter (empty seed history), the run continues and scores store 1 —
yet the run's per-entity skip diagnostics are empty: store 2 is never
reported, so the "skips that entity and reports it" conjunct is false
on this input. -/
theorem C8_counterexample :
    ((score_store.dropna
      [⟨1, 0, 5, some 1, some 1, some 1, some 1, some 1, some 1, some 1⟩,
       ⟨2, 0, 6, some 1, some 1, none, some 1, some 1, some 1,
         some 1⟩]).filter (fun r => r.store = 2) = []) ∧
    (([⟨1, 0, 5, some 1, some 1, some 1, some 1, some 1, some 1, some 1⟩,
       ⟨2, 0, 6, some 1, some 1, none, some 1, some 1, some 1,
         some 1⟩] : List FRow).filter (fun r => r.store = 2) ≠ []) ∧
    ((score_store.main ⟨fun _ => 1, fun _ => 2, fun _ => 3⟩
      [⟨1, 0, 5, some 1, some 1, some 1, some 1, some 1, some 1, some 1⟩,
       ⟨2, 0, 6, some 1, some 1, none, some 1, some 1, some 1,
         some 1⟩]).rows.filter (fun r => r.store = 1)).length = 28 ∧
    (score_store.main ⟨fun _ => 1, fun _ => 2, fun _ => 3⟩
      [⟨1, 0, 5, some 1, some 1, some 1, some 1, some 1, some 1, some 1⟩,
       ⟨2, 0, 6, some 1, some 1, none, some 1, some 1, some 1,
         some 1⟩]).skipReports = [] := by
  refine ⟨by decide, by decide, by decide, rfl⟩

/-- C9 (amended): if a quantile predictor raises during scoring, the
exception propagates uncaught and the *entire run* aborts — not just
the failing entity's remaining horizon: no forecast row is produced for
any entity, and the error that escapes is the predictor's own exception
value, unchanged, with no entity, date or quantile identification added
by the scorer.  A NaN return value is not detected at all:
`float(m.predict(X)[0])` accepts NaN, the row is recorded and the NaN
median is appended to the buffer, so scoring continues (this path is
outside the exact rational embedding; the raising path is what the
theorem settles).  Shown for a P10 predictor that always raises `e`:
the run is `Except.error e` exactly. -/
theorem C9_error_propagation {E : Type} (e : E)
    (m50 m90 : score_store.Feat → Except E ℚ) (t : List FRow)
    (hne : score_store.cleanHist t ≠ []) :
    score_store.mainE
      { m10 := fun _ => Except.error e, m50 := m50, m90 := m90 } t
      = Except.error e := by
  cases hc : score_store.cleanHist t with
  | nil => exact absurd hc hne
  | cons a rest =>
    unfold score_store.mainE
    rw [hc]
    rfl

/-- Witness for C9: one surviving history row, failing P10 predictor —
the whole run is the predictor's raw error. -/
theorem C9_witness :
    score_store.mainE
      { m10 := fun _ => Except.error (0 : ℕ)
        m50 := fun _ => Except.ok 1
        m90 := fun _ => Except.ok 1 }
      [⟨1, 0, 5, some 1, some 1, some 1, some 1, some 1, some 1, some 1⟩]
      = Except.error 0 :=
  C9_error_propagation 0 (fun _ => Except.ok 1) (fun _ => Except.ok 1)
    [⟨1, 0, 5, some 1, some 1, some 1, some 1, some 1, some 1, some 1⟩]
    (by decide)

/-- C9 counterexample: the claim requires the resulting error to
identify the entity, the date and the quantile level of the failure.
Here two runs fail at *different* entities, dates and quantile levels —
run A: store 1, first future date 1, quantile 0.1; run B: store 7,
second future date 12, quantile 0.9 — yet both runs return the
identical value `Except.error 0`, the predictor's raw exception: no
function of the scorer's result can recover the entity, the date or the
quantile, so the identification clause is false.  (Both runs also show
the run aborting wholesale: no rows are returned for any entity.) -/
theorem C9_counterexample :
    (score_store.mainE
      { m10 := fun _ => Except.error (0 : ℕ)
        m50 := fun _ => Except.ok 1
        m90 := fun _ => Except.ok 1 }
      [⟨1, 0, 5, some 1, some 1, some 1, some 1, some 1, some 1, some 1⟩]
      = Except.error 0) ∧
    (score_store.mainE
      { m10 := fun _ => Except.ok 1
        m50 := fun _ => Except.ok 1
        m90 := fun X => if X.date = 12 then Except.error (0 : ℕ)
          else Except.ok 1 }
      [⟨7, 10, 5, some 1, some 1, some 1, some 1, some 1, some 1,
        some 1⟩]
      = Except.error 0) := by
  constructor
  · rfl
  · rfl

namespace FeatureBuilder

/-- Presence of `shift(k)`: defined exactly when `k` earlier rows
exist. -/
theorem lagOf_isSome (k : ℕ) (hk : 1 ≤ k) (ys : List ℚ) :
    (lagOf k ys).isSome = decide (k ≤ ys.length) := by
  unfold lagOf
  split_ifs with h
  · have hlt : ys.length - k < ys.length := by omega
    rw [List.get?_eq_get hlt]
    simp [h]
  · simp [h]

/-- Presence of `rolling(w).mean()`. -/
theorem rollMeanOf_isSome (w : ℕ) (ys : List ℚ) :
    (rollMeanOf w ys).isSome = decide (w ≤ ys.length) := by
  unfold rollMeanOf
  split_ifs with h
  · simp [h]
  · simp [h]

/-- Presence of `rolling(w).std()`. -/
theorem rollVarOf_isSome (w : ℕ) (ys : List ℚ) :
    (rollVarOf w ys).isSome = decide (w ≤ ys.length) := by
  unfold rollVarOf
  split_ifs with h
  · simp [h]
  · simp [h]

/-- A row of a single-store history survives `df.dropna()` exactly when
it has at least 28 prior rows in its group (the binding constraint is
the 28-day lag/rolling columns). -/
theorem mkRow_keep (prev : List HRow) (x : HRow)
    (hpf : prev.filter (fun z => z.store = x.store) = prev) :
    ((mkRow prev x).lag_1.isSome && (mkRow prev x).lag_7.isSome &&
     (mkRow prev x).lag_28.isSome && (mkRow prev x).roll_mean_7.isSome &&
     (mkRow prev x).roll_std_7_sq.isSome &&
     (mkRow prev x).roll_mean_28.isSome &&
     (mkRow prev x).roll_std_28_sq.isSome)
      = decide (28 ≤ prev.length) := by
  have e1 : (mkRow prev x).lag_1 = lagOf 1 (prev.map (fun z => z.y)) := by
    show lagOf 1 ((prev.filter (fun z => z.store = x.store)).map
      (fun z => z.y)) = _
    rw [hpf]
  have e2 : (mkRow prev x).lag_7 = lagOf 7 (prev.map (fun z => z.y)) := by
    show lagOf 7 ((prev.filter (fun z => z.store = x.store)).map
      (fun z => z.y)) = _
    rw [hpf]
  have e3 : (mkRow prev x).lag_28
      = lagOf 28 (prev.map (fun z => z.y)) := by
    show lagOf 28 ((prev.filter (fun z => z.store = x.store)).map
      (fun z => z.y)) = _
    rw [hpf]
  have e4 : (mkRow prev x).roll_mean_7
      = rollMeanOf 7 (prev.map (fun z => z.y)) := by
    show rollMeanOf 7 ((prev.filter (fun z => z.store = x.store)).map
      (fun z => z.y)) = _
    rw [hpf]
  have e5 : (mkRow prev x).roll_std_7_sq
      = rollVarOf 7 (prev.map (fun z => z.y)) := by
    show rollVarOf 7 ((prev.filter (fun z => z.store = x.store)).map
      (fun z => z.y)) = _
    rw [hpf]
  have e6 : (mkRow prev x).roll_mean_28
      = rollMeanOf 28 (prev.map (fun z => z.y)) := by
    show rollMeanOf 28 ((prev.filter (fun z => z.store = x.store)).map
      (fun z => z.y)) = _
    rw [hpf]
  have e7 : (mkRow prev x).roll_std_28_sq
      = rollVarOf 28 (prev.map (fun z => z.y)) := by
    show rollVarOf 28 ((prev.filter (fun z => z.store = x.store)).map
      (fun z => z.y)) = _
    rw [hpf]
  rw [e1, e2, e3, e4, e5, e6, e7, lagOf_isSome 1 (by omega),
    lagOf_isSome 7 (by omega), lagOf_isSome 28 (by omega),
    rollMeanOf_isSome, rollVarOf_isSome, rollMeanOf_isSome,
    rollVarOf_isSome, List.length_map]
  by_cases h : 28 ≤ prev.length
  · simp [h, show 1 ≤ prev.length by omega,
      show 7 ≤ prev.length by omega]
  · simp only [show decide (28 ≤ prev.length) = false by simp [h]]
    simp

end FeatureBuilder

/-- On a single-store table, the rows surviving `df.dropna()` carry
exactly the group's `y` series with its first `28 − |prev|` entries
removed: every row with fewer than 28 prior group rows is dropped. -/
theorem dropna_buildAux_single (s : ℕ) :
    ∀ (l prev : List HRow), (∀ x ∈ l, x.store = s) →
      (∀ x ∈ prev, x.store = s) →
      (score_store.dropna (FeatureBuilder.buildAux prev l)).map
          (fun fr => fr.y)
        = (l.map (fun x => x.y)).drop (28 - prev.length)
  | [], prev, _, _ => by
    simp [score_store.dropna, FeatureBuilder.buildAux]
  | x :: rest, prev, hl, hp => by
    have hxs : x.store = s := hl x (by simp)
    have hpf : prev.filter (fun z => z.store = x.store) = prev := by
      apply List.filter_eq_self.mpr
      intro z hz
      simp [hp z hz, hxs]
    have hkeep := FeatureBuilder.mkRow_keep prev x hpf
    have hih := dropna_buildAux_single s rest (prev ++ [x])
      (fun z hz => hl z (by simp [hz]))
      (fun z hz => by
        rcases List.mem_append.mp hz with h1 | h1
        · exact hp z h1
        · simp at h1
          rw [h1, hxs])
    unfold score_store.dropna at hih ⊢
    show (List.filter _ (FeatureBuilder.mkRow prev x ::
      FeatureBuilder.buildAux (prev ++ [x]) rest)).map _ = _
    rw [List.filter_cons]
    by_cases h28 : 28 ≤ prev.length
    · rw [if_pos (by rw [hkeep]; simp [h28])]
      rw [List.map_cons]
      have hy : (FeatureBuilder.mkRow prev x).y = x.y := rfl
      rw [hy, hih]
      have e1 : 28 - prev.length = 0 := by omega
      have e2 : 28 - (prev ++ [x]).length = 0 := by
        simp
        omega
      rw [e1, e2]
      simp
    · rw [if_neg (by rw [hkeep]; simp [h28])]
      rw [hih]
      have e3 : 28 - prev.length = (28 - (prev ++ [x]).length) + 1 := by
        simp
        omega
      rw [List.map_cons, e3, List.drop_succ_cons]

/-- C10: before seeding the recursive scorer, `df.dropna()` removes
every history row with any missing feature value; since the Feature
Builder leaves lag/rolling features missing for each entity's earliest
rows, each entity's surviving seed series is its full `y` series with
the first 28 rows removed — and an entity whose total history is 28
rows or fewer contributes no rows at all: it silently produces no
forecast rows and no error or report. -/
theorem C10_seed_drops_first_28 (M : score_store.QModels)
    (t : List HRow) (s : ℕ) :
    ((score_store.dropna (FeatureBuilder.build t)).filter
        (fun r => r.store = s)).map (fun r => r.y)
      = (((t.insertionSort hle).filter
          (fun r => r.store = s)).map (fun r => r.y)).drop 28 ∧
    ((t.filter (fun r => r.store = s)).length ≤ 28 →
      ((score_store.main M (FeatureBuilder.build t)).rows.filter
        (fun r => r.store = s)) = [] ∧
      (score_store.main M (FeatureBuilder.build t)).skipReports
        = []) := by
  have hcomm : (score_store.dropna (FeatureBuilder.build t)).filter
      (fun r => r.store = s)
      = score_store.dropna ((FeatureBuilder.build t).filter
        (fun r => r.store = s)) := by
    unfold score_store.dropna
    rw [List.filter_comm]
  have hbf := FeatureBuilder.build_filter_store t s
  have hsf : (t.filter (fun r => r.store = s)).insertionSort hle
      = (t.insertionSort hle).filter (fun r => r.store = s) :=
    (insertionSort_filter hle _ t).symm
  have hall : ∀ x ∈ (t.filter (fun r => r.store = s)).insertionSort hle,
      x.store = s := by
    intro x hx
    have hx' := (List.perm_insertionSort hle _).subset hx
    simpa using List.of_mem_filter hx'
  have hsingle := dropna_buildAux_single s
    ((t.filter (fun r => r.store = s)).insertionSort hle) [] hall
    (by simp)
  have ha : ((score_store.dropna (FeatureBuilder.build t)).filter
      (fun r => r.store = s)).map (fun r => r.y)
      = (((t.insertionSort hle).filter
        (fun r => r.store = s)).map (fun r => r.y)).drop 28 := by
    rw [hcomm, hbf]
    unfold FeatureBuilder.build
    rw [hsingle, hsf]
    norm_num
  refine ⟨ha, ?_⟩
  intro hn
  have hlen : ((t.insertionSort hle).filter
      (fun r => r.store = s)).length ≤ 28 := by
    have hp := ((List.perm_insertionSort hle t).filter
      (fun r => decide (r.store = s))).length_eq
    omega
  have hempty : ((score_store.dropna (FeatureBuilder.build t)).filter
      (fun r => r.store = s)) = [] := by
    have hmap := ha
    rw [List.drop_eq_nil_of_le (by
      rw [List.length_map]
      exact hlen)] at hmap
    exact List.map_eq_nil_iff.mp hmap
  have hnotin : s ∉ (score_store.cleanHist
      (FeatureBuilder.build t)).map (fun r => r.store) := by
    intro hmem
    rw [List.mem_map] at hmem
    obtain ⟨r, hr, hrs⟩ := hmem
    have hr' : r ∈ score_store.dropna (FeatureBuilder.build t) :=
      (List.perm_insertionSort fle _).subset hr
    have hmem2 : r ∈ (score_store.dropna
        (FeatureBuilder.build t)).filter (fun r => r.store = s) := by
      rw [List.mem_filter]
      exact ⟨hr', by simp [hrs]⟩
    rw [hempty] at hmem2
    simp at hmem2
  have h1 := score_store.main_rows_filter M (FeatureBuilder.build t) s
  rw [if_neg hnotin] at h1
  exact ⟨h1, rfl⟩

/-- Witness for C10: a store with only two history rows (≤ 28) — its
cleaned seed is empty, so the run emits no rows for it and no
report. -/
theorem C10_witness :
    ((score_store.main ⟨fun _ => 1, fun _ => 2, fun _ => 3⟩
      (FeatureBuilder.build [⟨1, 0, 1⟩, ⟨1, 1, 2⟩])).rows.filter
      (fun r => r.store = 1)) = [] ∧
    (score_store.main ⟨fun _ => 1, fun _ => 2, fun _ => 3⟩
      (FeatureBuilder.build [⟨1, 0, 1⟩, ⟨1, 1, 2⟩])).skipReports = [] :=
  (C10_seed_drops_first_28 ⟨fun _ => 1, fun _ => 2, fun _ => 3⟩
    [⟨1, 0, 1⟩, ⟨1, 1, 2⟩] 1).2 (by decide)
